import Mathlib

/-!
Verification of the render scheduler and interval helpers of the libfive
preview renderer.

The embedding covers:

* `src/lib/inc/ao/core/interval.hpp`: the overloaded `_min` / `_max`
  functions on `boost::numeric::interval<double>`.  `boost::numeric::min`
  and `boost::numeric::max` combine intervals componentwise, so the
  embedding computes `[min lo lo, min hi hi]` (resp. `max`).  Scalars are
  modelled as rationals; `min`/`max` involve no rounding, so the ordered
  field structure is all that matters.

* `src/lib/src/gl/frame.cpp`: the `Frame` render scheduler
  (`Frame::render`, `Frame::startRender`, `Frame::poll`, and the matrix
  computation of `Frame::draw`).  The scheduler state is the quadruple
  `current` / `pending` / `next` / `future` of the C++ class, with two
  ghost observations (`workers`, `assertsOk`) recording how many async
  workers have been dispatched but not yet harvested and whether the
  `assert` statements at the top of `Frame::startRender` have always held.
-/

namespace Ao

/-- Closed interval `[lo, hi]`, the shallow embedding of
`boost::numeric::interval<double>` from `ao/core/interval.hpp`. -/
structure Interval where
  lo : ℚ
  hi : ℚ
deriving DecidableEq, Repr

/-- Embedding of `_min` from `ao/core/interval.hpp`.  It forwards to
`boost::numeric::min`, which returns
`interval(min(a.lower(), b.lower()), min(a.upper(), b.upper()))`. -/
def min_ (a b : Interval) : Interval :=
  ⟨min a.lo b.lo, min a.hi b.hi⟩

/-- Embedding of `_max` from `ao/core/interval.hpp`.  It forwards to
`boost::numeric::max`, which returns
`interval(max(a.lower(), b.lower()), max(a.upper(), b.upper()))`. -/
def max_ (a b : Interval) : Interval :=
  ⟨max a.lo b.lo, max a.hi b.hi⟩

/-- Abstract 4×4 matrices as they flow through the scheduler: the code
only ever forms `glm::inverse m` and products `m * n`, so matrices are
modelled as a free term algebra over named base matrices. -/
inductive MatExpr where
  | base : Nat → MatExpr
  | inv : MatExpr → MatExpr
  | mul : MatExpr → MatExpr → MatExpr
deriving DecidableEq, Repr

/-- Modelled from the spec: the `Task` value type of `Frame` (its class is
not under `src/`; `frame.cpp` constructs it as
`Task(mat, ni, nj, nk, level)`).  A task is a view transform, a requested
resolution, and a level-of-detail; validity (`Task::valid` /
`Task::reset`) is represented by wrapping tasks in `Option` at the use
sites. -/
structure Task where
  mat : MatExpr
  ni : Nat
  nj : Nat
  nk : Nat
  level : Nat
deriving DecidableEq, Repr

/-- Modelled from the spec: the `Region` value type (its class is not
under `src/`).  It stores three axis extents and three per-axis voxel
counts exactly as passed to its constructor in `Frame::startRender`. -/
structure Region where
  x : ℚ × ℚ
  y : ℚ × ℚ
  z : ℚ × ℚ
  ni : ℚ
  nj : ℚ
  nk : ℚ
deriving DecidableEq, Repr

/-- The region built for a task in `Frame::startRender`:
`Region({-1, 1}, {-1, 1}, {-1, 1}, ni/div, nj/div, nk/div)` with
`div = 2.0 * level`. -/
def Task.region (t : Task) : Region :=
  ⟨(-1, 1), (-1, 1), (-1, 1),
   (t.ni : ℚ) / (2 * t.level), (t.nj : ℚ) / (2 * t.level),
   (t.nk : ℚ) / (2 * t.level)⟩

/-- State of a `Frame` as far as the scheduler is concerned: the
`current` / `pending` / `next` tasks, whether `future.valid()` holds, the
matrix last installed by `tree->setMatrix`, the region handed to the last
dispatched worker, plus two ghost fields: `workers` counts async workers
dispatched but not yet harvested by `future.get()`, and `assertsOk`
records that the `assert(!future.valid())` / `assert(!pending.valid())`
pair at the top of `Frame::startRender` held at every call so far. -/
structure FrameState where
  current : Option Task
  pending : Option Task
  next : Option Task
  futureInFlight : Bool
  treeMat : Option MatExpr
  dispatchedRegion : Option Region
  workers : Nat
  assertsOk : Bool
deriving DecidableEq, Repr

/-- A freshly constructed `Frame`: no tasks, no worker. -/
def initState : FrameState :=
  ⟨none, none, none, false, none, none, 0, true⟩

namespace Frame

/-- The body of the `if (next.valid())` branch of `Frame::startRender`:
build the region, install the inverted matrix into the tree, launch the
async worker, move the task into `pending`, clear `next`. -/
def dispatch (s : FrameState) (t : Task) : FrameState :=
  { s with
    treeMat := some (MatExpr.inv t.mat),
    dispatchedRegion := some t.region,
    pending := some t,
    next := none,
    futureInFlight := true,
    workers := s.workers + 1 }

/-- Embedding of `Frame::startRender`.  The C++ recursion in the
refinement branch immediately re-enters with `next` freshly set (and the
asserted state unchanged), so that recursive call is inlined as a direct
dispatch of the halved task. -/
def startRender (s0 : FrameState) : FrameState :=
  let s := { s0 with
             assertsOk := s0.assertsOk && !s0.futureInFlight && s0.pending.isNone }
  match s.next with
  | some t => dispatch s t
  | none =>
    match s.current with
    | some c =>
      if 1 < c.level then
        dispatch { s with next := some { c with level := c.level / 2 } }
          { c with level := c.level / 2 }
      else s
    | none => s

/-- Embedding of `Frame::render(m, ni, nj, nk)`: store a fresh level-8
task into `next`, then call `startRender` unless a future is in flight. -/
def render (s : FrameState) (m : MatExpr) (ni nj nk : Nat) : FrameState :=
  let s1 := { s with next := some ⟨m, ni, nj, nk, 8⟩ }
  if s1.futureInFlight then s1 else startRender s1

/-- Embedding of `Frame::poll`.  `ready` is the outcome of the
non-blocking `future.wait_for(0s)` check on the in-flight worker.  On a
ready worker the result is harvested (`future.get()`), `pending` is
promoted to `current`, and `startRender` continues the progression. -/
def poll (s : FrameState) (ready : Bool) : FrameState × Bool :=
  if s.futureInFlight then
    if ready then
      (startRender
        { s with
          current := s.pending,
          pending := none,
          futureInFlight := false,
          workers := s.workers - 1 }, true)
    else (s, false)
  else (s, false)

/-- The matrix computation of `Frame::draw`: it returns early when
`current` is invalid, otherwise the uniform is `m * glm::inverse(current.mat)`. -/
def drawMatrix (s : FrameState) (m : MatExpr) : Option MatExpr :=
  s.current.map (fun c => MatExpr.mul m (MatExpr.inv c.mat))

end Frame

/-- An external stimulus applied to a `Frame`: a `render` request or a
`poll` whose worker readiness is the given boolean. -/
inductive Event where
  | req : MatExpr → Nat → Nat → Nat → Event
  | poll : Bool → Event
deriving DecidableEq, Repr

/-- Apply one event to a scheduler state. -/
def stepE (s : FrameState) (e : Event) : FrameState :=
  match e with
  | .req m ni nj nk => Frame.render s m ni nj nk
  | .poll r => (Frame.poll s r).1

/-- Run a trace of events from the freshly constructed `Frame`. -/
def run (l : List Event) : FrameState :=
  l.foldl stepE initState

/-- Apply a list of `render` requests in order. -/
def requestAll (s : FrameState) (l : List (MatExpr × Nat × Nat × Nat)) : FrameState :=
  l.foldl (fun s r => Frame.render s r.1 r.2.1 r.2.2.1 r.2.2.2) s

/-- The scheduler states along the automatic refinement chain: one
request on a fresh frame, followed by `n` polls that each find the worker
finished. -/
def refineChain (m : MatExpr) (ni nj nk : Nat) : Nat → FrameState
  | 0 => Frame.render initState m ni nj nk
  | n + 1 => (Frame.poll (refineChain m ni nj nk n) true).1

/-- The single-worker invariant: the future is valid exactly when a task
is pending, the ghost worker count matches the future, and the asserts in
`Frame::startRender` have never fired. -/
def SchedInv (s : FrameState) : Prop :=
  s.futureInFlight = s.pending.isSome ∧
  s.workers = (if s.futureInFlight then 1 else 0) ∧
  s.assertsOk = true

/-- C7: `_min` and `_max` are the componentwise combinations, and they
contain the pointwise `min` (resp. `max`) of any members of the operands. -/
theorem c7_min_max_conservative (a b : Interval) (x y : ℚ)
    (hx1 : a.lo ≤ x) (hx2 : x ≤ a.hi) (hy1 : b.lo ≤ y) (hy2 : y ≤ b.hi) :
    min_ a b = ⟨min a.lo b.lo, min a.hi b.hi⟩ ∧
    max_ a b = ⟨max a.lo b.lo, max a.hi b.hi⟩ ∧
    ((min_ a b).lo ≤ min x y ∧ min x y ≤ (min_ a b).hi) ∧
    ((max_ a b).lo ≤ max x y ∧ max x y ≤ (max_ a b).hi) := by
  refine ⟨rfl, rfl, ⟨?_, ?_⟩, ⟨?_, ?_⟩⟩
  · exact min_le_min hx1 hy1
  · exact min_le_min hx2 hy2
  · exact max_le_max hx1 hy1
  · exact max_le_max hx2 hy2

/-- Witness for C7 at the concrete intervals `[0, 2]`, `[1, 3]` with
members `1` and `2`. -/
theorem c7_min_max_conservative_witness :
    min_ ⟨0, 2⟩ ⟨1, 3⟩ = ⟨min 0 1, min 2 3⟩ ∧
    max_ ⟨0, 2⟩ ⟨1, 3⟩ = ⟨max 0 1, max 2 3⟩ ∧
    ((min_ ⟨0, 2⟩ ⟨1, 3⟩).lo ≤ min 1 2 ∧ min 1 2 ≤ (min_ ⟨0, 2⟩ ⟨1, 3⟩).hi) ∧
    ((max_ ⟨0, 2⟩ ⟨1, 3⟩).lo ≤ max 1 2 ∧ max 1 2 ≤ (max_ ⟨0, 2⟩ ⟨1, 3⟩).hi) :=
  c7_min_max_conservative ⟨0, 2⟩ ⟨1, 3⟩ 1 2
    (by norm_num) (by norm_num) (by norm_num) (by norm_num)

/-- C8: `_min` and `_max` are commutative, associative and idempotent. -/
theorem c8_min_max_algebra (a b c : Interval) :
    (min_ a b = min_ b a ∧ min_ (min_ a b) c = min_ a (min_ b c) ∧ min_ a a = a) ∧
    (max_ a b = max_ b a ∧ max_ (max_ a b) c = max_ a (max_ b c) ∧ max_ a a = a) := by
  refine ⟨⟨?_, ?_, ?_⟩, ⟨?_, ?_, ?_⟩⟩
  · simp [min_, min_comm]
  · simp [min_, min_assoc]
  · simp [min_]
  · simp [max_, max_comm]
  · simp [max_, max_assoc]
  · simp [max_]

/-- `Frame::startRender` never touches `current`: it only dispatches or
queues work. -/
theorem startRender_current (s : FrameState) :
    (Frame.startRender s).current = s.current := by
  unfold Frame.startRender
  cases s.next with
  | some t => rfl
  | none =>
    cases s.current with
    | some c =>
      by_cases h : 1 < c.level <;> simp [h, Frame.dispatch]
    | none => rfl

/-- While a future is in flight, `Frame::render` only overwrites `next`. -/
theorem render_inflight (s : FrameState) (hf : s.futureInFlight = true)
    (m : MatExpr) (ni nj nk : Nat) :
    Frame.render s m ni nj nk = { s with next := some ⟨m, ni, nj, nk, 8⟩ } := by
  simp [Frame.render, hf]

/-- C2: `poll` returns false and leaves the state untouched unless a
worker is in flight and has finished; in that case it promotes `pending`
to `current`, clears `pending`, harvests the future, calls `startRender`,
and returns true. -/
theorem c2_poll_nonblocking (s : FrameState) (ready : Bool) :
    Frame.poll s ready =
      (if s.futureInFlight && ready then
         Frame.startRender
           { s with current := s.pending, pending := none,
                    futureInFlight := false, workers := s.workers - 1 }
       else s,
       s.futureInFlight && ready) ∧
    ((Frame.poll s ready).1).current =
      (if s.futureInFlight && ready then s.pending else s.current) := by
  cases hf : s.futureInFlight <;> cases ready <;>
    simp [Frame.poll, hf, startRender_current]

/-- C4: a request always queues a level-8 task over any earlier queued
one, and it dispatches that task immediately exactly when no task is
pending. -/
theorem c4_request_dispatch (s : FrameState) (m : MatExpr) (ni nj nk : Nat)
    (hinv : s.futureInFlight = s.pending.isSome) :
    (s.pending = none →
      Frame.render s m ni nj nk =
        Frame.dispatch
          { s with next := some ⟨m, ni, nj, nk, 8⟩,
                   assertsOk := s.assertsOk } ⟨m, ni, nj, nk, 8⟩ ∧
      (Frame.render s m ni nj nk).pending = some ⟨m, ni, nj, nk, 8⟩ ∧
      (Frame.render s m ni nj nk).futureInFlight = true ∧
      (Frame.render s m ni nj nk).next = none) ∧
    (s.pending ≠ none →
      (Frame.render s m ni nj nk).next = some ⟨m, ni, nj, nk, 8⟩ ∧
      (Frame.render s m ni nj nk).pending = s.pending ∧
      (Frame.render s m ni nj nk).futureInFlight = true ∧
      (Frame.render s m ni nj nk).current = s.current) := by
  cases hp : s.pending with
  | none =>
    have hf : s.futureInFlight = false := by simp [hinv, hp]
    refine ⟨fun _ => ?_, fun h => absurd rfl h⟩
    simp [Frame.render, Frame.startRender, hf, hp, Frame.dispatch]
  | some t =>
    have hf : s.futureInFlight = true := by simp [hinv, hp]
    refine ⟨fun h => by simp [hp] at h, fun _ => ?_⟩
    simp [render_inflight s hf, hp, hf]

/-- Witness for C4 on the freshly constructed frame (nothing pending) and
on the state right after that dispatch (a task pending). -/
theorem c4_request_dispatch_witness :
    ((Frame.render initState (MatExpr.base 0) 2 2 2).pending =
      some ⟨MatExpr.base 0, 2, 2, 2, 8⟩ ∧
     (Frame.render initState (MatExpr.base 0) 2 2 2).futureInFlight = true ∧
     (Frame.render initState (MatExpr.base 0) 2 2 2).next = none) ∧
    ((Frame.render (Frame.render initState (MatExpr.base 0) 2 2 2)
        (MatExpr.base 1) 4 4 4).next = some ⟨MatExpr.base 1, 4, 4, 4, 8⟩ ∧
     (Frame.render (Frame.render initState (MatExpr.base 0) 2 2 2)
        (MatExpr.base 1) 4 4 4).pending =
      (Frame.render initState (MatExpr.base 0) 2 2 2).pending) := by
  have h1 := (c4_request_dispatch initState (MatExpr.base 0) 2 2 2 rfl).1 rfl
  have h2 := (c4_request_dispatch (Frame.render initState (MatExpr.base 0) 2 2 2)
      (MatExpr.base 1) 4 4 4 rfl).2 (by exact fun h => Option.noConfusion (h1.2.1 ▸ h))
  exact ⟨⟨h1.2.1, h1.2.2.1, h1.2.2.2⟩, ⟨h2.1, h2.2.1⟩⟩

/-- C6: the region built for a queued task has the fixed extents
`[-1, 1]` on every axis and per-axis voxel counts `requested / (2 * level)`. -/
theorem c6_region_level_scaled (s : FrameState) (t : Task) (h : s.next = some t) :
    (Frame.startRender s).dispatchedRegion =
      some ⟨(-1, 1), (-1, 1), (-1, 1),
            (t.ni : ℚ) / (2 * t.level), (t.nj : ℚ) / (2 * t.level),
            (t.nk : ℚ) / (2 * t.level)⟩ := by
  simp [Frame.startRender, h, Frame.dispatch, Task.region]

/-- Witness for C6: a 32×48×64 request at level 8 samples 2×3×4 voxels
over the fixed `[-1, 1]` box. -/
theorem c6_region_level_scaled_witness :
    (Frame.startRender
      { initState with next := some ⟨MatExpr.base 0, 32, 48, 64, 8⟩ }).dispatchedRegion =
      some ⟨(-1, 1), (-1, 1), (-1, 1), 2, 3, 4⟩ := by
  have h := c6_region_level_scaled
    { initState with next := some ⟨MatExpr.base 0, 32, 48, 64, 8⟩ }
    ⟨MatExpr.base 0, 32, 48, 64, 8⟩ rfl
  rw [h]
  norm_num

/-- C10: dispatch installs the inverse of the task's matrix into the tree
while the task keeps the original matrix, and after the task is promoted
the draw uniform is `m * inverse(current.mat)`. -/
theorem c10_inverse_installed (s : FrameState) (t : Task) (h : s.next = some t) :
    (Frame.startRender s).treeMat = some (MatExpr.inv t.mat) ∧
    (Frame.startRender s).pending = some t ∧
    ∀ m : MatExpr,
      Frame.drawMatrix ((Frame.poll (Frame.startRender s) true).1) m =
        some (MatExpr.mul m (MatExpr.inv t.mat)) := by
  have h1 : (Frame.startRender s).futureInFlight = true := by
    simp [Frame.startRender, h, Frame.dispatch]
  have h2 : (Frame.startRender s).pending = some t := by
    simp [Frame.startRender, h, Frame.dispatch]
  refine ⟨?_, h2, fun m => ?_⟩
  · simp [Frame.startRender, h, Frame.dispatch]
  · simp [Frame.poll, h1, startRender_current, h2, Frame.drawMatrix]

/-- Witness for C10 at a concrete queued task. -/
theorem c10_inverse_installed_witness :
    (Frame.startRender
      { initState with next := some ⟨MatExpr.base 5, 2, 2, 2, 8⟩ }).treeMat =
      some (MatExpr.inv (MatExpr.base 5)) ∧
    (Frame.startRender
      { initState with next := some ⟨MatExpr.base 5, 2, 2, 2, 8⟩ }).pending =
      some ⟨MatExpr.base 5, 2, 2, 2, 8⟩ ∧
    Frame.drawMatrix
        ((Frame.poll (Frame.startRender
          { initState with next := some ⟨MatExpr.base 5, 2, 2, 2, 8⟩ }) true).1)
        (MatExpr.base 9) =
      some (MatExpr.mul (MatExpr.base 9) (MatExpr.inv (MatExpr.base 5))) := by
  obtain ⟨h1, h2, h3⟩ := c10_inverse_installed
    { initState with next := some ⟨MatExpr.base 5, 2, 2, 2, 8⟩ }
    ⟨MatExpr.base 5, 2, 2, 2, 8⟩ rfl
  exact ⟨h1, h2, h3 (MatExpr.base 9)⟩

/-- C9 fails on the code: `Frame::render` performs no validation at all,
so a zero-resolution request is not a no-op — it changes the scheduler
state and dispatches a worker. -/
theorem c9_counterexample :
    Frame.render initState (MatExpr.base 0) 0 0 0 ≠ initState ∧
    (Frame.render initState (MatExpr.base 0) 0 0 0).pending =
      some ⟨MatExpr.base 0, 0, 0, 0, 8⟩ ∧
    (Frame.render initState (MatExpr.base 0) 0 0 0).futureInFlight = true ∧
    (Frame.render initState (MatExpr.base 0) 0 0 0).workers = 1 := by
  refine ⟨fun hEq => ?_, rfl, rfl, rfl⟩
  exact Bool.noConfusion (congrArg FrameState.futureInFlight hEq)

/-- C9 amended: degenerate (zero-resolution) requests are processed like
any other request — a level-8 task is created, dispatched, and its worker
receives a region with zero voxel counts.  (The extents are fixed and not
caller-supplied, and the resolution parameters are unsigned, so "negative"
inputs cannot occur.) -/
theorem c9_degenerate_not_rejected (m : MatExpr) :
    (Frame.render initState m 0 0 0).pending = some ⟨m, 0, 0, 0, 8⟩ ∧
    (Frame.render initState m 0 0 0).futureInFlight = true ∧
    (Frame.render initState m 0 0 0).workers = 1 ∧
    (Frame.render initState m 0 0 0).dispatchedRegion =
      some ⟨(-1, 1), (-1, 1), (-1, 1), 0, 0, 0⟩ := by
  refine ⟨rfl, rfl, rfl, ?_⟩
  simp [Frame.render, Frame.startRender, initState, Frame.dispatch, Task.region]

/-- While a future is in flight, any non-empty burst of requests reduces
to its last request overwriting `next`. -/
theorem requestAll_inflight (s : FrameState) (hf : s.futureInFlight = true)
    (l : List (MatExpr × Nat × Nat × Nat)) (m : MatExpr) (ni nj nk : Nat) :
    requestAll s (l ++ [(m, ni, nj, nk)]) =
      { s with next := some ⟨m, ni, nj, nk, 8⟩ } := by
  induction l generalizing s hf with
  | nil =>
    show Frame.render s m ni nj nk = _
    exact render_inflight s hf m ni nj nk
  | cons a rest ih =>
    show requestAll (Frame.render s a.1 a.2.1 a.2.2.1 a.2.2.2)
        (rest ++ [(m, ni, nj, nk)]) = _
    rw [render_inflight s hf]
    exact ih { s with next := some ⟨a.1, a.2.1, a.2.2.1, a.2.2.2, 8⟩ } hf

/-- C1: requests arriving while a task is pending never cancel it — every
burst of requests only overwrites `next` with the latest one, leaving
`current`, `pending` and the in-flight worker untouched, and the pending
task is still the one promoted to `current` by the next successful poll. -/
theorem c1_pending_never_cancelled (s : FrameState) (hf : s.futureInFlight = true)
    (l : List (MatExpr × Nat × Nat × Nat)) (m : MatExpr) (ni nj nk : Nat) :
    requestAll s (l ++ [(m, ni, nj, nk)]) =
      { s with next := some ⟨m, ni, nj, nk, 8⟩ } ∧
    (requestAll s (l ++ [(m, ni, nj, nk)])).pending = s.pending ∧
    (requestAll s (l ++ [(m, ni, nj, nk)])).current = s.current ∧
    (requestAll s (l ++ [(m, ni, nj, nk)])).futureInFlight = true ∧
    ((Frame.poll (requestAll s (l ++ [(m, ni, nj, nk)])) true).1).current =
      s.pending := by
  have h := requestAll_inflight s hf l m ni nj nk
  refine ⟨h, by rw [h], by rw [h], by rw [h]; exact hf, ?_⟩
  rw [h]
  simp [Frame.poll, hf, startRender_current]

/-- Witness for C1: with a level-8 task of matrix 0 in flight, two more
requests coalesce into a single queued `next` holding the last one, and
the in-flight task is still promoted on the next poll. -/
theorem c1_pending_never_cancelled_witness :
    requestAll (Frame.render initState (MatExpr.base 0) 2 2 2)
        ([(MatExpr.base 1, 4, 4, 4)] ++ [(MatExpr.base 2, 6, 6, 6)]) =
      { Frame.render initState (MatExpr.base 0) 2 2 2 with
        next := some ⟨MatExpr.base 2, 6, 6, 6, 8⟩ } ∧
    (requestAll (Frame.render initState (MatExpr.base 0) 2 2 2)
        ([(MatExpr.base 1, 4, 4, 4)] ++ [(MatExpr.base 2, 6, 6, 6)])).pending =
      (Frame.render initState (MatExpr.base 0) 2 2 2).pending ∧
    (requestAll (Frame.render initState (MatExpr.base 0) 2 2 2)
        ([(MatExpr.base 1, 4, 4, 4)] ++ [(MatExpr.base 2, 6, 6, 6)])).current =
      (Frame.render initState (MatExpr.base 0) 2 2 2).current ∧
    (requestAll (Frame.render initState (MatExpr.base 0) 2 2 2)
        ([(MatExpr.base 1, 4, 4, 4)] ++ [(MatExpr.base 2, 6, 6, 6)])).futureInFlight =
      true ∧
    ((Frame.poll (requestAll (Frame.render initState (MatExpr.base 0) 2 2 2)
        ([(MatExpr.base 1, 4, 4, 4)] ++ [(MatExpr.base 2, 6, 6, 6)])) true).1).current =
      (Frame.render initState (MatExpr.base 0) 2 2 2).pending :=
  c1_pending_never_cancelled (Frame.render initState (MatExpr.base 0) 2 2 2) rfl
    [(MatExpr.base 1, 4, 4, 4)] (MatExpr.base 2) 6 6 6

/-- `Frame::startRender` establishes the single-worker invariant whenever
its `assert`s hold on entry. -/
theorem schedInv_startRender (s : FrameState) (hf : s.futureInFlight = false)
    (hp : s.pending = none) (hw : s.workers = 0) (ha : s.assertsOk = true) :
    SchedInv (Frame.startRender s) := by
  unfold Frame.startRender SchedInv
  cases hn : s.next with
  | some t => simp [hn, Frame.dispatch, hf, hp, hw, ha]
  | none =>
    cases hc : s.current with
    | some c =>
      by_cases hl : 1 < c.level <;>
        simp [hn, hc, hl, Frame.dispatch, hf, hp, hw, ha]
    | none => simp [hn, hc, hf, hp, hw, ha]

/-- `Frame::render` preserves the single-worker invariant. -/
theorem schedInv_render (s : FrameState) (h : SchedInv s)
    (m : MatExpr) (ni nj nk : Nat) :
    SchedInv (Frame.render s m ni nj nk) := by
  obtain ⟨h1, h2, h3⟩ := h
  cases hf : s.futureInFlight with
  | true =>
    rw [render_inflight s hf]
    exact ⟨h1, h2, h3⟩
  | false =>
    have hp : s.pending = none := by
      cases hps : s.pending with
      | none => rfl
      | some t => rw [hf, hps] at h1; exact Bool.noConfusion h1
    have hw : s.workers = 0 := by rw [h2, hf]; rfl
    have hstep : Frame.render s m ni nj nk
        = Frame.startRender { s with next := some ⟨m, ni, nj, nk, 8⟩ } := by
      simp [Frame.render, hf]
    rw [hstep]
    exact schedInv_startRender { s with next := some ⟨m, ni, nj, nk, 8⟩ }
      hf hp hw h3

/-- `Frame::poll` preserves the single-worker invariant. -/
theorem schedInv_poll (s : FrameState) (h : SchedInv s) (r : Bool) :
    SchedInv ((Frame.poll s r).1) := by
  obtain ⟨h1, h2, h3⟩ := h
  cases hf : s.futureInFlight with
  | false =>
    simp only [Frame.poll, hf, Bool.false_eq_true, if_false]
    exact ⟨h1, h2, h3⟩
  | true =>
    cases r with
    | false =>
      simp only [Frame.poll, hf, if_true, Bool.false_eq_true, if_false]
      exact ⟨h1, h2, h3⟩
    | true =>
      have hstep : (Frame.poll s true).1
          = Frame.startRender
            { s with current := s.pending, pending := none,
                     futureInFlight := false, workers := s.workers - 1 } := by
        simp [Frame.poll, hf]
      rw [hstep]
      refine schedInv_startRender _ rfl rfl ?_ h3
      show s.workers - 1 = 0
      rw [h2, hf]
      decide

/-- Every trace preserves the single-worker invariant. -/
theorem schedInv_foldl (l : List Event) :
    ∀ s : FrameState, SchedInv s → SchedInv (l.foldl stepE s) := by
  induction l with
  | nil => exact fun _ h => h
  | cons e rest ih =>
    intro s h
    refine ih (stepE s e) ?_
    cases e with
    | req m ni nj nk => exact schedInv_render s h m ni nj nk
    | poll r => exact schedInv_poll s h r

/-- C3: in every reachable scheduler state at most one worker is in
flight, the future is valid exactly when a task is pending, and the
asserts guarding dispatch in `Frame::startRender` never fired. -/
theorem c3_at_most_one_worker (l : List Event) :
    SchedInv (run l) ∧ (run l).workers ≤ 1 ∧ (run l).assertsOk = true := by
  have h : SchedInv (run l) := schedInv_foldl l initState ⟨rfl, rfl, rfl⟩
  refine ⟨h, ?_, h.2.2⟩
  rw [h.2.1]
  cases (run l).futureInFlight <;> simp

/-- C5: a single request on a fresh frame auto-refines through levels
8, 4, 2, 1 — each successful poll promotes the finished task and queues a
task with the same transform and resolution at half the level — and after
four successful polls the scheduler is idle at level 1. -/
theorem c5_auto_refine_terminates (m : MatExpr) (ni nj nk : Nat) :
    ((Frame.poll (refineChain m ni nj nk 0) true).2 = true ∧
     (Frame.poll (refineChain m ni nj nk 1) true).2 = true ∧
     (Frame.poll (refineChain m ni nj nk 2) true).2 = true ∧
     (Frame.poll (refineChain m ni nj nk 3) true).2 = true) ∧
    ((refineChain m ni nj nk 1).current = some ⟨m, ni, nj, nk, 8⟩ ∧
     (refineChain m ni nj nk 1).pending = some ⟨m, ni, nj, nk, 4⟩ ∧
     (refineChain m ni nj nk 2).current = some ⟨m, ni, nj, nk, 4⟩ ∧
     (refineChain m ni nj nk 2).pending = some ⟨m, ni, nj, nk, 2⟩ ∧
     (refineChain m ni nj nk 3).current = some ⟨m, ni, nj, nk, 2⟩ ∧
     (refineChain m ni nj nk 3).pending = some ⟨m, ni, nj, nk, 1⟩) ∧
    ((refineChain m ni nj nk 4).current = some ⟨m, ni, nj, nk, 1⟩ ∧
     (refineChain m ni nj nk 4).pending = none ∧
     (refineChain m ni nj nk 4).next = none ∧
     (refineChain m ni nj nk 4).futureInFlight = false ∧
     Frame.poll (refineChain m ni nj nk 4) true =
       (refineChain m ni nj nk 4, false)) := by
  refine ⟨⟨?_, ?_, ?_, ?_⟩, ⟨?_, ?_, ?_, ?_, ?_, ?_⟩, ⟨?_, ?_, ?_, ?_, ?_⟩⟩ <;>
    with_unfolding_all rfl

end Ao
